import Mathlib

/-!
Verification of the gagaga file server's path-confinement core and
thumbnail-cache actor, as a shallow embedding of the Rust sources
(`src/domainprim.rs`, `src/fs.rs`, `src/vfs.rs`, `src/cachethumb.rs`,
`src/thcache.rs`).

Paths are modelled abstractly as lists of components (mirroring
`std::path::Component` on Unix); the live filesystem (canonicalize,
read_dir, stat) is an explicit oracle parameter, since those are
syscalls whose results the code merely consumes.
-/

namespace Gagaga

/-- A path component, mirroring `std::path::Component` on Unix
(prefix components do not occur there). -/
inductive Component where
  | rootDir
  | curDir
  | parentDir
  | normal (s : String)
  deriving DecidableEq, Repr

/-- A path, as its list of components. -/
abbrev CPath := List Component

/-- Rust `Path::is_absolute` on Unix: the path has a root. -/
def isAbsolutePath : CPath → Bool
  | Component.rootDir :: _ => true
  | _ => false

/-- Rust `Path::join` / `PathBuf::push`: if the pushed path is absolute,
it replaces the base entirely; otherwise the components are appended. -/
def rjoin (base p : CPath) : CPath :=
  if isAbsolutePath p then p else base ++ p

/-- Rust `Path::starts_with`: component-wise prefix test. -/
def pstarts : CPath → CPath → Bool
  | [], _ => true
  | _ :: _, [] => false
  | a :: as, b :: bs => a = b && pstarts as bs

/-- Rust `Path::strip_prefix`: drop a component-wise prefix, or error. -/
def pstrip (pre p : CPath) : Except Unit CPath :=
  if pstarts pre p then Except.ok (p.drop pre.length) else Except.error ()

/-- The `UnifiedError` enum of `domainprim.rs` / `prim.rs`, with the
internal `anyhow` payloads (never shown to a client) elided. -/
inductive UnifiedError where
  | internalServerError
  | notFound
  deriving DecidableEq, Repr

/-- The component test inside `pathresolve`: the quick check accepts
exactly `Component::Normal` and `Component::RootDir`. -/
def isNormalish : Component → Bool
  | Component.normal _ => true
  | Component.rootDir => true
  | _ => false

/-- `pathresolve` from `domainprim.rs` (and identically `domain.rs`, with
the VFS made explicit): reject non-normal user paths, join the working
directory with the user path, canonicalize against the live filesystem
(the `canon` oracle; its `Err` is the `std::io::Error` case, which the
`?` operator converts to `NotFound`), then require the canonical result
to start with the working directory. -/
def pathresolve (canon : CPath → Except Unit CPath)
    (pathuser : CPath) (workdir : CPath) : Except UnifiedError CPath :=
  if ¬ (pathuser.all isNormalish) then
    Except.error UnifiedError.notFound
  else
    match canon (rjoin workdir pathuser) with
    | Except.error _ => Except.error UnifiedError.notFound
    | Except.ok path =>
        if ¬ (pstarts workdir path) then
          Except.error UnifiedError.notFound
        else
          Except.ok path

/-- Helper: any successfully resolved path starts with the working
directory (read off the final guard of `pathresolve`). -/
theorem pathresolve_ok_pstarts (canon : CPath → Except Unit CPath)
    (u w p : CPath) (h : pathresolve canon u w = Except.ok p) :
    pstarts w p = true := by
  unfold pathresolve at h
  split at h
  · exact absurd h (by simp)
  · split at h
    · exact absurd h (by simp)
    · rename_i hstart
      split at h
      · exact absurd h (by simp)
      · simp only [Except.ok.injEq] at h
        subst h
        simp_all

/-- Helper: if canonicalization of the joined path succeeds but the
result is outside the working directory, `pathresolve` fails with
`NotFound`. -/
theorem pathresolve_outside_err (canon : CPath → Except Unit CPath)
    (u w q : CPath) (hc : canon (rjoin w u) = Except.ok q)
    (hq : pstarts w q = false) :
    pathresolve canon u w = Except.error UnifiedError.notFound := by
  unfold pathresolve
  split
  · rfl
  · rw [hc]
    simp [hq]

/-- The variant of `pathresolve` worded by the spec for claim C5:
strip any leading separator from the user path before joining, so that
an absolute-looking fragment is interpreted relative to the root.
Used only for comparison against the source's `pathresolve`. -/
def pathresolveStripped (canon : CPath → Except Unit CPath)
    (pathuser : CPath) (workdir : CPath) : Except UnifiedError CPath :=
  let stripped := match pathuser with
    | Component.rootDir :: rest => rest
    | other => other
  if ¬ (stripped.all isNormalish) then
    Except.error UnifiedError.notFound
  else
    match canon (rjoin workdir stripped) with
    | Except.error _ => Except.error UnifiedError.notFound
    | Except.ok path =>
        if ¬ (pstarts workdir path) then
          Except.error UnifiedError.notFound
        else
          Except.ok path

/-- Example canonicalize oracle: the identity filesystem, in which every
path canonicalizes to itself. -/
def canonId : CPath → Except Unit CPath := fun p => Except.ok p

/-- Example root directory `/srv`. -/
def wEx : CPath := [Component.rootDir, Component.normal "srv"]

/-- Example absolute-looking client path `/etc/passwd`. -/
def uAbsEx : CPath := [Component.rootDir, Component.normal "etc",
  Component.normal "passwd"]

/-- Example canonicalize oracle that sends every path to a fixed path
outside the root `/srv`, the way a symlink inside the root pointing
outside it would. -/
def canonOutside : CPath → Except Unit CPath :=
  fun _ => Except.ok [Component.rootDir, Component.normal "etc"]

/-- C1: whenever `pathresolve` returns successfully, the returned path
has the root (working directory) as a path prefix; and whenever
canonicalization of the joined path succeeds but yields a path outside
the root — as with a symlink inside the root pointing outside it —
`pathresolve` returns an error (`NotFound`) and never that path. -/
theorem pathresolve_confines (canon : CPath → Except Unit CPath)
    (u w : CPath) :
    (∀ p, pathresolve canon u w = Except.ok p → pstarts w p = true) ∧
    (∀ q, canon (rjoin w u) = Except.ok q → pstarts w q = false →
      pathresolve canon u w = Except.error UnifiedError.notFound) :=
  ⟨fun p h => pathresolve_ok_pstarts canon u w p h,
   fun q hq hout => pathresolve_outside_err canon u w q hq hout⟩

/-- Witness for C1: on the identity filesystem, resolving `a` under
`/srv` succeeds with a confined path; with a canonicalization landing at
`/etc`, resolution fails with `NotFound`. -/
theorem pathresolve_confines_witness :
    pathresolve canonId [Component.normal "a"] wEx =
      Except.ok (wEx ++ [Component.normal "a"]) ∧
    pstarts wEx (wEx ++ [Component.normal "a"]) = true ∧
    pathresolve canonOutside [Component.normal "a"] wEx =
      Except.error UnifiedError.notFound := by
  refine ⟨rfl, ?_, ?_⟩
  · exact (pathresolve_confines canonId [Component.normal "a"] wEx).1
      (wEx ++ [Component.normal "a"]) rfl
  · exact (pathresolve_confines canonOutside [Component.normal "a"] wEx).2
      [Component.rootDir, Component.normal "etc"] rfl (by decide)

/-- C5 counterexample: `pathresolve` does not strip a leading separator.
For the user path `/etc/passwd` under root `/srv`, the join performed by
`pathresolve` silently discards the root (it equals the user path and
does not have the root as a prefix), and on the identity filesystem
`pathresolve` returns `NotFound` where the spec-worded stripping variant
returns `/srv/etc/passwd`. -/
theorem pathresolve_no_strip_counterexample :
    rjoin wEx uAbsEx = uAbsEx ∧
    pstarts wEx (rjoin wEx uAbsEx) = false ∧
    pathresolve canonId uAbsEx wEx = Except.error UnifiedError.notFound ∧
    pathresolveStripped canonId uAbsEx wEx =
      Except.ok [Component.rootDir, Component.normal "srv",
        Component.normal "etc", Component.normal "passwd"] := by
  refine ⟨by decide, by decide, rfl, rfl⟩

/-- C5 as amended: `pathresolve` does not strip a leading separator from
the user path; its normality check admits `RootDir` components, and the
join with an absolute user path silently discards the root (the joined
path is the user path itself). Containment is enforced only afterwards:
such a path is returned successfully only when its canonicalization lies
inside the root, and otherwise `pathresolve` returns `NotFound`. -/
theorem pathresolve_absolute_join_amended
    (canon : CPath → Except Unit CPath) (u w : CPath)
    (habs : isAbsolutePath u = true) :
    rjoin w u = u ∧
    (∀ p, pathresolve canon u w = Except.ok p → pstarts w p = true) ∧
    (∀ q, canon u = Except.ok q → pstarts w q = false →
      pathresolve canon u w = Except.error UnifiedError.notFound) := by
  have hj : rjoin w u = u := by unfold rjoin; simp [habs]
  refine ⟨hj, fun p h => pathresolve_ok_pstarts canon u w p h, ?_⟩
  intro q hq hout
  exact pathresolve_outside_err canon u w q (by rw [hj]; exact hq) hout

/-- Witness for the amended C5, at the absolute user path `/etc/passwd`
under root `/srv` on the identity filesystem. -/
theorem pathresolve_absolute_join_amended_witness :
    rjoin wEx uAbsEx = uAbsEx ∧
    pathresolve canonId uAbsEx wEx = Except.error UnifiedError.notFound := by
  have h := pathresolve_absolute_join_amended canonId uAbsEx wEx (by decide)
  exact ⟨h.1, h.2.2 uAbsEx rfl (by decide)⟩

/-- C6: every failure of `pathresolve` — a non-normal component, a
canonicalization I/O error, or a canonical result outside the root — is
surfaced as the `NotFound` variant of `UnifiedError`, never as the
distinct `InternalServerError` variant. -/
theorem pathresolve_errors_notfound (canon : CPath → Except Unit CPath)
    (u w : CPath) (e : UnifiedError)
    (h : pathresolve canon u w = Except.error e) :
    e = UnifiedError.notFound := by
  unfold pathresolve at h
  split at h
  · simp only [Except.error.injEq] at h
    exact h.symm
  · split at h
    · simp only [Except.error.injEq] at h
      exact h.symm
    · split at h
      · simp only [Except.error.injEq] at h
        exact h.symm
      · exact absurd h (by simp)

/-- Witness for C6: a traversal path `..` fails, and the error is
`NotFound`. -/
theorem pathresolve_errors_notfound_witness :
    pathresolve canonId [Component.parentDir] wEx =
      Except.error UnifiedError.notFound ∧
    UnifiedError.notFound = UnifiedError.notFound :=
  ⟨rfl,
   pathresolve_errors_notfound canonId [Component.parentDir] wEx
     UnifiedError.notFound rfl⟩

/-- A path component as seen by the validator `bad_path1`, carrying its
text as a character list (the validator inspects characters). -/
inductive VComp where
  | vRoot
  | vCur
  | vParent
  | vNormal (s : List Char)
  deriving DecidableEq, Repr

/-- Split a character list on a separator character. -/
def splitOnChar (sep : Char) : List Char → List (List Char)
  | [] => [[]]
  | c :: cs =>
      let rest := splitOnChar sep cs
      if c = sep then [] :: rest
      else
        match rest with
        | [] => [[c]]
        | r :: rs => (c :: r) :: rs

/-- UTF-8 byte length of a character list, matching `OsStr::len` of a
Unix path (bytes in memory). -/
def utf8Len (l : List Char) : Nat :=
  l.foldl (fun a c => a + c.utf8Size) 0

/-- Unicode whitespace test restricted to its ASCII fragment, standing
in for Rust `char::is_whitespace` (the validator claims only involve
ASCII whitespace). -/
def isWs (c : Char) : Bool := c.isWhitespace

/-- Rust `str::trim` on a character list. -/
def trimChars (l : List Char) : List Char :=
  ((l.dropWhile isWs).reverse.dropWhile isWs).reverse

/-- Parse a path string (character list) into components, modelling Rust
`Path::components` on Unix: a leading separator yields `RootDir`, empty
parts are skipped, and `.` is normalized away except at the beginning of
a relative path. -/
def parseComponents (p : List Char) : List VComp :=
  let hasRoot : Bool := match p with
    | '/' :: _ => true
    | _ => false
  let parts := ((splitOnChar '/' p).filter
    (fun s => s ≠ [] && s ≠ ['.']))
  let lead : List VComp :=
    if hasRoot then [VComp.vRoot]
    else match p with
      | '.' :: [] => [VComp.vCur]
      | '.' :: '/' :: _ => [VComp.vCur]
      | _ => []
  lead ++ parts.map (fun s =>
    if s = ['.', '.'] then VComp.vParent else VComp.vNormal s)

/-- The ASCII control / Windows-reserved character test of `bad_path1`. -/
def badChar (c : Char) : Bool :=
  (c.toNat < 32 || c.toNat = 127) ||
    (c = '/' || c = '<' || c = '>' || c = ':' || c = '"' ||
     c = '\\' || c = '|' || c = '?' || c = '*')

/-- Rust `component.get(..=3)`: the first four bytes of the component as
a string slice, when the component has at least four bytes (the claims
involve ASCII components, where bytes coincide with characters). -/
def getThrough3 (s : List Char) : Option (List Char) :=
  if 4 ≤ s.length then some (s.take 4) else none

/-- Rust `component.get(4..).and_then(next char)`: the first character
at byte offset 4, if any. -/
def charAt4 (s : List Char) : Option Char :=
  (s.drop 4).head?

/-- The per-component reserved-name loop body of `bad_path1` (`fs.rs` /
`vfs.rs` lines 76–153): strip everything from the first `.` on, reject
leading or trailing whitespace, trim, compare against `CON PRN AUX NUL`,
then run the `COM`/`LPT` check via `get(..=3)`. Returns `true` when the
path is rejected. -/
def badComponents : List VComp → Bool
  | [] => false
  | VComp.vNormal s :: rest =>
      let comp := match splitOnChar '.' s with
        | x :: _ => x
        | [] => s
      let hasBad : Bool := match comp with
        | [] => false
        | c :: cs => isWs c || isWs ((c :: cs).getLast (by simp))
      if hasBad then true
      else
        let comp := trimChars comp
        if comp = ['C', 'O', 'N'] || comp = ['P', 'R', 'N'] ||
           comp = ['A', 'U', 'X'] || comp = ['N', 'U', 'L'] then true
        else
          match getThrough3 comp with
          | some pre =>
              if pre = ['C', 'O', 'M'] || pre = ['L', 'P', 'T'] then
                match charAt4 comp with
                | none => badComponents rest
                | some c => if c.isDigit then true else badComponents rest
              else badComponents rest
          | none => badComponents rest
  | _ :: _ => true

/-- `bad_path1` from `fs.rs` (identical in `vfs.rs`): reject over-long
paths, paths with ASCII control or Windows-reserved characters, reserved
device names, and non-normal components. The two non-Unicode branches of
the source cannot arise here because the input is already text. -/
def bad_path1 (p : List Char) : Bool :=
  if utf8Len p > 2048 then true
  else if p.any badChar then true
  else badComponents (parseComponents p)

/-- C3: evaluation of `bad_path1` at the claim's own example inputs.
The code accepts `COM1` (the `get(..=3)` slice takes four bytes, so it
can never equal the three-byte `COM`/`LPT`, leaving that branch dead),
and accepts the lowercase `con` and `Nul.txt` (the device-name
comparison is case-sensitive), contradicting the claim and the
function's own documentation; the exact uppercase `CON` is rejected. -/
theorem bad_path1_reserved_names_eval :
    bad_path1 "COM1".toList = false ∧
    bad_path1 "con".toList = false ∧
    bad_path1 "Nul.txt".toList = false ∧
    bad_path1 "LPT1".toList = false ∧
    bad_path1 "CON".toList = true ∧
    bad_path1 "NUL".toList = true := by
  refine ⟨?_, ?_, ?_, ?_, ?_, ?_⟩ <;> rfl

/-- Cached thumbnail bytes (`Vec<u8>`). -/
abbrev Bytes := List Nat

/-- Timestamps (`DateTime`), modelled as integers with their total
order. -/
abbrev Stamp := Int

/-- The cache actor's map from paths to (timestamp, bytes), the
`HashMap<_, (DateTime, Vec<u8>)>` of both actor implementations,
modelled as an association list with first-match lookup. -/
abbrev CacheMap := List (CPath × (Stamp × Bytes))

/-- `HashMap::get` on the association-list model. -/
def hmGet : CacheMap → CPath → Option (Stamp × Bytes)
  | [], _ => none
  | (k, v) :: rest, key => if key = k then some v else hmGet rest key

/-- `HashMap::insert` on the association-list model: replace the entry
for the key if present, otherwise add it. -/
def hmInsert : CacheMap → CPath → Stamp × Bytes → CacheMap
  | [], key, v => [(key, v)]
  | (k, w) :: rest, key, v =>
      if key = k then (key, v) :: rest
      else (k, w) :: hmInsert rest key v

/-- The `stat` outcome the cache actor observes for a key: an I/O error,
or metadata whose modification time may be unavailable. -/
abbrev StatResult := Except Unit (Option Stamp)

/-- `CacheResponse` of `cachethumb.rs`: last-modified plus thumbnail. -/
structure CtResponse where
  lastmod : Stamp
  thumbnail : Bytes
  deriving DecidableEq, Repr

/-- `CacheMessage` of `cachethumb.rs`. -/
inductive CtMsg where
  | ins (path : CPath) (data : Bytes)
  | get (path : CPath)
  deriving DecidableEq, Repr

/-- Outcome of one iteration of the `cachethumb.rs` actor loop: either
the loop continues with the (possibly updated) map, recording the value
a successful reply carried, or the task panicked (an `unwrap` of a
failed `oneshot` send). -/
inductive CtOutcome where
  | next (cache : CacheMap) (reply : Option (Option CtResponse))
  | panicked
  deriving DecidableEq, Repr

/-- The reply value the `Get` arm of `spawn_cache_process`
(`cachethumb.rs`) computes: `None` when the key is missing, the stat
errs, or no mtime is available, or when `flastmod > clastmod` (stale);
otherwise the cached response. The `contains_key` test and the later
`get(..).unwrap()` of the source are fused into a single lookup. -/
def ctGetReplyVal (cache : CacheMap) (path : CPath) (stat : StatResult) :
    Option CtResponse :=
  match hmGet cache path with
  | none => none
  | some (clastmod, data) =>
      match stat with
      | Except.error _ => none
      | Except.ok none => none
      | Except.ok (some flastmod) =>
          if flastmod > clastmod then none else some ⟨clastmod, data⟩

/-- One iteration of the `spawn_cache_process` loop of `cachethumb.rs`.
`now` is the wall-clock time an `Insert` records; `stat` is the result
of `VfsImplA.stat` on the key; `rxAlive` tells whether the `Get` reply
receiver is still alive. Every `Get` arm of the source ends in one
`reply_to.send(value).unwrap()`, so the iteration delivers the computed
reply value when the receiver is alive and panics the task otherwise. -/
def ctStep (cache : CacheMap) (msg : CtMsg) (now : Stamp)
    (stat : StatResult) (rxAlive : Bool) : CtOutcome :=
  match msg with
  | CtMsg.ins path data => CtOutcome.next (hmInsert cache path (now, data)) none
  | CtMsg.get path =>
      if rxAlive then
        CtOutcome.next cache (some (ctGetReplyVal cache path stat))
      else CtOutcome.panicked

/-- `CacheResponse` of `thcache.rs`: thumbnail data plus last-modified. -/
structure TcResponse where
  dat : Bytes
  lmo : Stamp
  deriving DecidableEq, Repr

/-- `Msg` of `thcache.rs`; `Ins` carries the timestamp computed by the
sender. -/
inductive TcMsg where
  | ins (virtPath : CPath) (now : Stamp) (dat : Bytes)
  | get (virtPath : CPath)
  deriving DecidableEq, Repr

/-- The reply value the `Get` arm of `CacheProcess::spawn`
(`thcache.rs`) computes: the entry only when `fresh`, that is, when the
stat produced a last-modified (`meta.ok().and_then(..)`), the entry
exists, and strictly `fslmo < ca.0`. -/
def tcGetReplyVal (hmp : CacheMap) (virtPath : CPath)
    (stat : StatResult) : Option TcResponse :=
  let fslmo : Option Stamp := match stat with
    | Except.error _ => none
    | Except.ok o => o
  match fslmo, hmGet hmp virtPath with
  | some fl, some (lmo, dat) =>
      if fl < lmo then some ⟨dat, lmo⟩ else none
  | _, _ => none

/-- One iteration of the `CacheProcess::spawn` loop of `thcache.rs`.
Replies are sent with `let _ = rpy.send(..)`, so the outcome is always
the new map together with the reply value attempted. -/
def tcStep (hmp : CacheMap) (msg : TcMsg) (stat : StatResult) :
    CacheMap × Option (Option TcResponse) :=
  match msg with
  | TcMsg.ins virtPath now dat => (hmInsert hmp virtPath (now, dat), none)
  | TcMsg.get virtPath => (hmp, some (tcGetReplyVal hmp virtPath stat))

/-- Example cache key. -/
def kEx : CPath := [Component.rootDir, Component.normal "pic.jpg"]

/-- Example cache map holding `kEx` with timestamp 5. -/
def cacheEx : CacheMap := [(kEx, (5, [1, 2, 3]))]

/-- C2 counterexample: in `thcache.rs`, when the filesystem mtime equals
the cached timestamp (both 5), `Get` replies with a miss (`None`), not
a hit — freshness there is the strict `fslmo < cache timestamp`. -/
theorem thcache_equal_mtime_miss :
    tcStep cacheEx (TcMsg.get kEx) (Except.ok (some 5)) =
      (cacheEx, some none) ∧
    hmGet cacheEx kEx = some (5, [1, 2, 3]) :=
  ⟨rfl, rfl⟩

/-- C2 as amended: with the entry present and a filesystem mtime
available, the `cachethumb.rs` actor replies with a hit exactly when the
fs mtime is less than or equal to the cached timestamp (equality is a
hit), while the `thcache.rs` actor replies with a hit exactly when the
fs mtime is strictly less than the cached timestamp (equality is a
miss). -/
theorem cache_freshness_amended (cache : CacheMap) (k : CPath)
    (cl fl : Stamp) (d : Bytes) (hget : hmGet cache k = some (cl, d)) :
    (ctStep cache (CtMsg.get k) 0 (Except.ok (some fl)) true =
      CtOutcome.next cache (some (some ⟨cl, d⟩)) ↔ fl ≤ cl) ∧
    (tcStep cache (TcMsg.get k) (Except.ok (some fl)) =
      (cache, some (some ⟨d, cl⟩)) ↔ fl < cl) := by
  have hctv : ctGetReplyVal cache k (Except.ok (some fl)) =
      if fl > cl then none else some ⟨cl, d⟩ := by
    simp [ctGetReplyVal, hget]
  have htcv : tcGetReplyVal cache k (Except.ok (some fl)) =
      if fl < cl then some ⟨d, cl⟩ else none := by
    simp [tcGetReplyVal, hget]
  constructor
  · have hstep : ctStep cache (CtMsg.get k) 0 (Except.ok (some fl)) true =
        CtOutcome.next cache (some (ctGetReplyVal cache k
          (Except.ok (some fl)))) := rfl
    rw [hstep, hctv]
    by_cases hcmp : fl > cl
    · rw [if_pos hcmp]
      constructor
      · intro h
        exact absurd h (by simp)
      · intro h
        exact absurd hcmp (not_lt.mpr h)
    · rw [if_neg hcmp]
      constructor
      · intro _
        exact not_lt.mp hcmp
      · intro _
        rfl
  · have hstep : tcStep cache (TcMsg.get k) (Except.ok (some fl)) =
        (cache, some (tcGetReplyVal cache k (Except.ok (some fl)))) := rfl
    rw [hstep, htcv]
    by_cases hcmp : fl < cl
    · rw [if_pos hcmp]
      simp [hcmp]
    · rw [if_neg hcmp]
      constructor
      · intro h
        exact absurd h (by simp)
      · intro h
        exact absurd h hcmp

/-- Witness for the amended C2 at equal timestamps: `cachethumb` replies
with the cached bytes, `thcache` replies with a miss. -/
theorem cache_freshness_amended_witness :
    ctStep cacheEx (CtMsg.get kEx) 0 (Except.ok (some 5)) true =
      CtOutcome.next cacheEx (some (some ⟨5, [1, 2, 3]⟩)) ∧
    ¬ tcStep cacheEx (TcMsg.get kEx) (Except.ok (some 5)) =
      (cacheEx, some (some ⟨[1, 2, 3], 5⟩)) := by
  have h := cache_freshness_amended cacheEx kEx 5 5 [1, 2, 3] rfl
  constructor
  · exact h.1.mpr (le_refl 5)
  · intro hc
    exact absurd (h.2.mp hc) (lt_irrefl 5)

/-- C4: the `cachethumb.rs` actor evaluated at the failing input — a
`Get` whose one-shot reply receiver was already dropped (here with an
empty cache, so the reply is the plain `send(None).unwrap()`): the
`unwrap` of the failed send panics the actor task. The `thcache.rs`
actor at the same input discards the failed send and continues with its
map intact, as the claim demands. -/
theorem cachethumb_dropped_receiver_panics :
    ctStep [] (CtMsg.get kEx) 0 (Except.ok none) false =
      CtOutcome.panicked ∧
    tcStep [] (TcMsg.get kEx) (Except.ok none) = ([], some none) :=
  ⟨rfl, rfl⟩

/-- C10: processing a `Get` message leaves the cache map unchanged in
both actor implementations (in `cachethumb.rs`, whenever the iteration
completes without panicking), and any iteration that changes the map was
processing an `Insert` message. -/
theorem cache_get_frame (cache : CacheMap) (k : CPath) (now : Stamp)
    (stat : StatResult) (rxAlive : Bool) :
    (∀ c r, ctStep cache (CtMsg.get k) now stat rxAlive =
      CtOutcome.next c r → c = cache) ∧
    (tcStep cache (TcMsg.get k) stat).1 = cache ∧
    (∀ (msg : CtMsg) (c : CacheMap) (r : Option (Option CtResponse)),
      ctStep cache msg now stat rxAlive = CtOutcome.next c r →
      c ≠ cache → ∃ p d, msg = CtMsg.ins p d) ∧
    (∀ (msg : TcMsg), (tcStep cache msg stat).1 ≠ cache →
      ∃ p t d, msg = TcMsg.ins p t d) := by
  have hct : ∀ c r, ctStep cache (CtMsg.get k) now stat rxAlive =
      CtOutcome.next c r → c = cache := by
    intro c r h
    simp only [ctStep] at h
    by_cases ha : rxAlive = true
    · rw [if_pos ha] at h
      exact (CtOutcome.next.injEq _ _ _ _ ▸ h).1.symm
    · rw [if_neg ha] at h
      exact absurd h (by simp)
  refine ⟨hct, rfl, ?_, ?_⟩
  · intro msg c r h hc
    rcases msg with ⟨p, d⟩ | p
    · exact ⟨p, d, rfl⟩
    · exfalso
      apply hc
      simp only [ctStep] at h
      by_cases ha : rxAlive = true
      · rw [if_pos ha] at h
        exact (CtOutcome.next.injEq _ _ _ _ ▸ h).1.symm
      · rw [if_neg ha] at h
        exact absurd h (by simp)
  · intro msg h
    rcases msg with ⟨p, t, d⟩ | p
    · exact ⟨p, t, d, rfl⟩
    · exact absurd rfl h

/-- Witness for C10: at the example cache and a fresh `Get`, both actors
leave the map exactly as it was. -/
theorem cache_get_frame_witness :
    cacheEx = cacheEx ∧
    (tcStep cacheEx (TcMsg.get kEx) (Except.ok (some 5))).1 = cacheEx := by
  have h := cache_get_frame cacheEx kEx 0 (Except.ok (some 5)) true
  exact ⟨h.1 cacheEx (some (some ⟨5, [1, 2, 3]⟩)) rfl, h.2.1⟩

/-- Metadata of a directory entry as `dirlist` consumes it: the
`is_dir()` / `is_file()` classification of `DirEntry::metadata` (which
does not traverse symlinks, so a symlink entry reports neither), and the
optional modification time after `modified().ok().and_then(systime2datetime)`. -/
structure EMeta where
  isDir : Bool
  isFile : Bool
  modified : Option Stamp
  deriving DecidableEq, Repr

/-- A `tokio::fs::DirEntry`: its full path (`entry.path()`, the
directory joined with the entry name) and the result of
`entry.metadata()`. -/
structure DirEnt where
  path : CPath
  metadata : Except Unit EMeta
  deriving Repr

/-- The filesystem oracle `dirlist` runs against: `canonicalize` plus
`read_dir`, the latter producing the sequence of `next_entry()` results
(individual items may fail; the stream ends in `Ok(None)`). -/
structure Vfs where
  canon : CPath → Except Unit CPath
  readDir : CPath → Except Unit (List (Except Unit DirEnt))

/-- `DomainFile` of `domainprim.rs`: server-relative path, optional
last-modified, and the flags byte (bits 0–1 kind, bit 2 custom
thumbnail). -/
structure DomainFile where
  serverPath : CPath
  lastModified : Option Stamp
  flags : Nat
  deriving DecidableEq, Repr

/-- `DomainFile::new`; `dirlist` always passes a known kind
(`Some(true)` or `Some(false)`), so the `todo!` branch for an unknown
kind cannot arise and `isFile` is a plain boolean here. -/
def DomainFile.new (serverPath : CPath) (lastModified : Option Stamp)
    ( isFile : Bool) (customThumbnail : Bool) : DomainFile :=
  { serverPath := serverPath
    lastModified := lastModified
    flags := (if isFile then 1 else 2) +
      (if customThumbnail then 4 else 0) }

/-- The 24 extension spellings accepted by `extjpeg`. -/
def jpegExts : List (List Char) :=
  ["jpg", "jpG", "jPg", "jPG", "Jpg", "JpG", "JPg", "JPG",
   "jpeg", "jpeG", "jpEg", "jpEG", "jPeg", "jPeG", "jPEg", "jPEG",
   "Jpeg", "JpeG", "JpEg", "JpEG", "JPeg", "JPeG", "JPEg",
   "JPEG"].map String.toList

/-- Rust `Path::extension` on the textual last component: the part
after the last `.`, or nothing when there is no `.` or the only `.`
is the leading one of a hidden file. -/
def extOfChars (s : List Char) : Option (List Char) :=
  match splitOnChar '.' s with
  | [] => none
  | [_] => none
  | first :: rest =>
      if first = [] && rest.length = 1 then none
      else rest.getLast?

/-- Rust `Path::extension` of a component path: defined on a final
normal component only. -/
def rustExtension (p : CPath) : Option (List Char) :=
  match p.getLast? with
  | some (Component.normal s) => extOfChars s.toList
  | _ => none

/-- `extjpeg` of `domainprim.rs`: the extension is one of the listed
JPEG spellings. -/
def extjpeg (p : CPath) : Bool :=
  match rustExtension p with
  | none => false
  | some e => decide (e ∈ jpegExts)

/-- One body of the `dirlist` walk loop, for one `next_entry()` item:
`none` means the loop `continue`d without recording the entry (item
error, `pathresolve` failure, `strip_prefix` failure, metadata failure,
or a kind that is neither directory nor regular file); `some (true, f)`
records `f` among the directories, `some (false, f)` among the files. -/
def processEnt (canon : CPath → Except Unit CPath) (parent : CPath)
    (e : Except Unit DirEnt) : Option (Bool × DomainFile) :=
  match e with
  | Except.error _ => none
  | Except.ok ent =>
      match pathresolve canon ent.path parent with
      | Except.error _ => none
      | Except.ok rp =>
          match pstrip parent rp with
          | Except.error _ => none
          | Except.ok serverPath =>
              match ent.metadata with
              | Except.error _ => none
              | Except.ok md =>
                  if md.isDir then
                    some (true, DomainFile.new serverPath md.modified
                      false false)
                  else if md.isFile then
                    some (false, DomainFile.new serverPath md.modified
                      true (extjpeg rp))
                  else none

/-- The `while n < N` walk of `dirlist`: `n` is incremented before each
`next_entry()` probe, an exhausted stream (`Ok(None)`) breaks, and each
surviving entry is pushed to the files or directories accumulator.
Returns the accumulators together with the final value of `n`. -/
def dirlistGo (canon : CPath → Except Unit CPath) (parent : CPath)
    (N : Nat) : List (Except Unit DirEnt) → Nat →
    List DomainFile → List DomainFile →
    List DomainFile × List DomainFile × Nat
  | [], n, files, dirs =>
      if n < N then (files, dirs, n + 1) else (files, dirs, n)
  | e :: rest, n, files, dirs =>
      if n < N then
        match processEnt canon parent e with
        | none => dirlistGo canon parent N rest (n + 1) files dirs
        | some (true, df) =>
            dirlistGo canon parent N rest (n + 1) files (dirs ++ [df])
        | some (false, df) =>
            dirlistGo canon parent N rest (n + 1) (files ++ [df]) dirs
      else (files, dirs, n)

/-- The descending comparison `b.last_modified.cmp(&a.last_modified)`
reads: on `Option`, `None` sorts below `Some`. -/
def optLe : Option Stamp → Option Stamp → Bool
  | none, _ => true
  | some _, none => false
  | some a, some b => decide (a ≤ b)

/-- Insertion step of the model of `sort_unstable_by` with the
descending comparator. -/
def insertDesc (x : DomainFile) : List DomainFile → List DomainFile
  | [] => [x]
  | y :: ys =>
      if optLe y.lastModified x.lastModified then x :: y :: ys
      else y :: insertDesc x ys

/-- Model of `sort_unstable_by(|a, b| b.last_modified.cmp(&a.last_modified))`
(the source sort is unstable, so tie order is unspecified; an insertion
sort realizes one admissible order). -/
def sortDesc (l : List DomainFile) : List DomainFile :=
  l.foldr insertDesc []

/-- `DomainDirListing` of `domainprim.rs`. -/
structure DomainDirListing where
  truncated : Bool
  files : List DomainFile
  directories : List DomainFile
  deriving DecidableEq, Repr

/-- `dirlist::<N>` of `domainprim.rs`: open the directory (an open
failure is an I/O error, hence `NotFound`), walk up to `N` probes, set
`truncated` exactly when the loop counter reached `N`, and sort both
vectors by descending modification time. -/
def dirlist (N : Nat) (vfs : Vfs) (path parentPath : CPath) :
    Except UnifiedError DomainDirListing :=
  match vfs.readDir path with
  | Except.error _ => Except.error UnifiedError.notFound
  | Except.ok stream =>
      let r := dirlistGo vfs.canon parentPath N stream 0 [] []
      Except.ok
        { truncated := r.2.2 == N
          files := sortDesc r.1
          directories := sortDesc r.2.1 }

/-- Helper: stripping a verified component prefix succeeds and drops
that prefix. -/
theorem pstrip_of_pstarts (pre p : CPath) (h : pstarts pre p = true) :
    pstrip pre p = Except.ok (p.drop pre.length) := by
  simp [pstrip, h]

/-- Helper: inserting into the descending sort grows the length by
one. -/
theorem length_insertDesc (x : DomainFile) (l : List DomainFile) :
    (insertDesc x l).length = l.length + 1 := by
  induction l with
  | nil => rfl
  | cons y ys ih =>
      unfold insertDesc
      by_cases h : optLe y.lastModified x.lastModified = true
      · simp [h]
      · simp [h, ih]

/-- Helper: the descending sort preserves length. -/
theorem length_sortDesc (l : List DomainFile) :
    (sortDesc l).length = l.length := by
  induction l with
  | nil => rfl
  | cons x xs ih =>
      show (insertDesc x (sortDesc xs)).length = xs.length + 1
      rw [length_insertDesc, ih]

/-- A `next_entry()` item the `dirlist` loop skips: the item itself
errs, or the entry's path does not resolve inside the root, or its
metadata cannot be read, or its metadata reports neither a directory
nor a regular file (symlinks, devices). -/
def skipsEntry (canon : CPath → Except Unit CPath) (parent : CPath) :
    Except Unit DirEnt → Prop
  | Except.error _ => True
  | Except.ok ent =>
      (∃ er, pathresolve canon ent.path parent = Except.error er) ∨
      (∃ ioe, ent.metadata = Except.error ioe) ∨
      (∃ md, ent.metadata = Except.ok md ∧ md.isDir = false ∧
        md.isFile = false)

/-- A `next_entry()` item the `dirlist` loop records: a successful entry
whose path resolves inside the root and whose metadata reads as a
directory or a regular file. -/
def pushesEntry (canon : CPath → Except Unit CPath) (parent : CPath)
    (e : Except Unit DirEnt) : Prop :=
  ∃ ent, e = Except.ok ent ∧
    (∃ rp, pathresolve canon ent.path parent = Except.ok rp) ∧
    ∃ md, ent.metadata = Except.ok md ∧
      (md.isDir = true ∨ md.isFile = true)

/-- Helper: a skippable item is processed to `none`. -/
theorem processEnt_none_of_skips (canon : CPath → Except Unit CPath)
    (parent : CPath) (e : Except Unit DirEnt)
    (h : skipsEntry canon parent e) :
    processEnt canon parent e = none := by
  match e with
  | Except.error _ => rfl
  | Except.ok ent =>
      rcases h with ⟨er, her⟩ | ⟨ioe, hio⟩ | ⟨md, hmd, hd, hf⟩
      · simp [processEnt, her]
      · cases hp : pathresolve canon ent.path parent with
        | error er => simp [processEnt, hp]
        | ok rp =>
            have hps := pathresolve_ok_pstarts canon ent.path parent rp hp
            simp [processEnt, hp, pstrip_of_pstarts parent rp hps, hio]
      · cases hp : pathresolve canon ent.path parent with
        | error er => simp [processEnt, hp]
        | ok rp =>
            have hps := pathresolve_ok_pstarts canon ent.path parent rp hp
            simp [processEnt, hp, pstrip_of_pstarts parent rp hps, hmd,
              hd, hf]

/-- Helper: a recordable item is processed to `some`. -/
theorem processEnt_some_of_pushes (canon : CPath → Except Unit CPath)
    (parent : CPath) (e : Except Unit DirEnt)
    (h : pushesEntry canon parent e) :
    ∃ b df, processEnt canon parent e = some (b, df) := by
  obtain ⟨ent, rfl, ⟨rp, hrp⟩, md, hmd, hkind⟩ := h
  have hps := pathresolve_ok_pstarts canon ent.path parent rp hrp
  by_cases hd : md.isDir = true
  · exact ⟨true, DomainFile.new (rp.drop parent.length) md.modified
      false false,
      by simp [processEnt, hrp, pstrip_of_pstarts parent rp hps, hmd, hd]⟩
  · have hd0 : md.isDir = false := by
      revert hd
      cases md.isDir <;> simp
    have hf : md.isFile = true := by
      rcases hkind with h1 | h2
      · exact absurd h1 hd
      · exact h2
    exact ⟨false, DomainFile.new (rp.drop parent.length) md.modified
      true (extjpeg rp),
      by simp [processEnt, hrp, pstrip_of_pstarts parent rp hps, hmd,
        hd0, hf]⟩

/-- Helper: the walk records at most `N - n` further entries. -/
theorem dirlistGo_count_le (canon : CPath → Except Unit CPath)
    (parent : CPath) (N : Nat) :
    ∀ (stream : List (Except Unit DirEnt)) (n : Nat)
      (files dirs : List DomainFile),
    (dirlistGo canon parent N stream n files dirs).1.length +
      (dirlistGo canon parent N stream n files dirs).2.1.length ≤
      files.length + dirs.length + (N - n) := by
  intro stream
  induction stream with
  | nil =>
      intro n files dirs
      unfold dirlistGo
      by_cases h : n < N <;> simp [h]
  | cons e rest ih =>
      intro n files dirs
      unfold dirlistGo
      by_cases h : n < N
      · rw [if_pos h]
        split
        · have := ih (n + 1) files dirs
          omega
        · rename_i df heq
          have := ih (n + 1) files (dirs ++ [df])
          simp only [List.length_append, List.length_cons,
            List.length_nil] at this
          omega
        · rename_i df heq
          have := ih (n + 1) (files ++ [df]) dirs
          simp only [List.length_append, List.length_cons,
            List.length_nil] at this
          omega
      · rw [if_neg h]
        simp

/-- Helper: when at least `N - n` probes remain available in the stream,
the loop counter finishes at exactly `N`. -/
theorem dirlistGo_n_reach (canon : CPath → Except Unit CPath)
    (parent : CPath) (N : Nat) :
    ∀ (stream : List (Except Unit DirEnt)) (n : Nat)
      (files dirs : List DomainFile), n ≤ N → N ≤ n + stream.length →
    (dirlistGo canon parent N stream n files dirs).2.2 = N := by
  intro stream
  induction stream with
  | nil =>
      intro n files dirs h1 h2
      simp only [List.length_nil, Nat.add_zero] at h2
      have hn : n = N := Nat.le_antisymm h1 h2
      unfold dirlistGo
      rw [hn]
      simp
  | cons e rest ih =>
      intro n files dirs h1 h2
      simp only [List.length_cons] at h2
      unfold dirlistGo
      by_cases h : n < N
      · rw [if_pos h]
        split
        all_goals exact ih (n + 1) _ _ (by omega) (by omega)
      · rw [if_neg h]
        simp
        omega

/-- Helper: if every remaining item is skipped, the accumulators come
back unchanged. -/
theorem dirlistGo_acc_skip (canon : CPath → Except Unit CPath)
    (parent : CPath) (N : Nat) :
    ∀ (stream : List (Except Unit DirEnt)) (n : Nat)
      (files dirs : List DomainFile),
      (∀ e ∈ stream, processEnt canon parent e = none) →
    (dirlistGo canon parent N stream n files dirs).1 = files ∧
    (dirlistGo canon parent N stream n files dirs).2.1 = dirs := by
  intro stream
  induction stream with
  | nil =>
      intro n files dirs _
      unfold dirlistGo
      by_cases h : n < N <;> simp [h]
  | cons e rest ih =>
      intro n files dirs hall
      unfold dirlistGo
      by_cases h : n < N
      · rw [if_pos h]
        rw [hall e (List.mem_cons_self e rest)]
        exact ih (n + 1) files dirs
          (fun x hx => hall x (List.mem_cons_of_mem e hx))
      · rw [if_neg h]
        simp

/-- Helper: if every remaining item is recorded and exactly `N - n` of
them remain, every one is pushed and the loop counter finishes at `N`. -/
theorem dirlistGo_all_push (canon : CPath → Except Unit CPath)
    (parent : CPath) (N : Nat) :
    ∀ (stream : List (Except Unit DirEnt)) (n : Nat)
      (files dirs : List DomainFile),
      (∀ e ∈ stream, ∃ b df, processEnt canon parent e = some (b, df)) →
      n + stream.length = N →
    (dirlistGo canon parent N stream n files dirs).1.length +
      (dirlistGo canon parent N stream n files dirs).2.1.length =
      files.length + dirs.length + stream.length ∧
    (dirlistGo canon parent N stream n files dirs).2.2 = N := by
  intro stream
  induction stream with
  | nil =>
      intro n files dirs _ hlen
      simp only [List.length_nil, Nat.add_zero] at hlen
      unfold dirlistGo
      rw [hlen]
      simp
  | cons e rest ih =>
      intro n files dirs hall hlen
      have h : n < N := by simp at hlen; omega
      obtain ⟨b, df, hp⟩ := hall e (List.mem_cons_self e rest)
      have hrest : ∀ x ∈ rest, ∃ b df,
          processEnt canon parent x = some (b, df) :=
        fun x hx => hall x (List.mem_cons_of_mem e hx)
      unfold dirlistGo
      rw [if_pos h, hp]
      cases b
      · have := ih (n + 1) (files ++ [df]) dirs hrest (by simp at hlen; omega)
        simp [List.length_append] at this ⊢
        omega
      · have := ih (n + 1) files (dirs ++ [df]) hrest (by simp at hlen; omega)
        simp [List.length_append] at this ⊢
        omega

/-- Example directory entry: a symlink named `link` inside `/srv`
(`DirEntry::metadata` does not traverse the link, so it reports neither
a directory nor a regular file). -/
def entLink : DirEnt :=
  ⟨wEx ++ [Component.normal "link"],
   Except.ok (EMeta.mk false false (some 3))⟩

/-- Example directory entry: a regular file `b.txt` inside `/srv`. -/
def entFileB : DirEnt :=
  ⟨wEx ++ [Component.normal "b.txt"],
   Except.ok (EMeta.mk false true (some 4))⟩

/-- Example directory entry: a subdirectory `d` inside `/srv`. -/
def entDirD : DirEnt :=
  ⟨wEx ++ [Component.normal "d"],
   Except.ok (EMeta.mk true false none)⟩

/-- Example canonicalize oracle: `/srv/link` resolves (through the
symlink) to `/srv/target.txt`, inside the root; everything else is
already canonical. -/
def canonLink : CPath → Except Unit CPath := fun p =>
  if p = wEx ++ [Component.normal "link"] then
    Except.ok (wEx ++ [Component.normal "target.txt"])
  else Except.ok p

/-- Example filesystem for C7: `/srv` contains only the symlink entry. -/
def vfsC7 : Vfs :=
  ⟨canonLink, fun p =>
    if p = wEx then Except.ok [Except.ok entLink]
    else Except.error ()⟩

/-- Example filesystem for C8: `/srv` contains the symlink entry and a
regular file, two entries in all. -/
def vfsC8 : Vfs :=
  ⟨canonLink, fun p =>
    if p = wEx then Except.ok [Except.ok entLink, Except.ok entFileB]
    else Except.error ()⟩

/-- Example filesystem for C9: `/srv` contains exactly a regular file
and a subdirectory. -/
def vfsC9 : Vfs :=
  ⟨canonId, fun p =>
    if p = wEx then Except.ok [Except.ok entFileB, Except.ok entDirD]
    else Except.error ()⟩

/-- The listing that `dirlist` computes, before any claim-specific
reading: open succeeded, so the result packages the walk with the
truncation flag and the two sorted vectors. -/
theorem dirlist_ok_of_readDir (N : Nat) (vfs : Vfs)
    (path parent : CPath) (stream : List (Except Unit DirEnt))
    (hrd : vfs.readDir path = Except.ok stream) :
    dirlist N vfs path parent = Except.ok
      ⟨(dirlistGo vfs.canon parent N stream 0 [] []).2.2 == N,
       sortDesc (dirlistGo vfs.canon parent N stream 0 [] []).1,
       sortDesc (dirlistGo vfs.canon parent N stream 0 [] []).2.1⟩ := by
  unfold dirlist
  rw [hrd]

/-- C7 counterexample: a symlink entry whose target resolves inside the
root and whose metadata reads successfully is omitted from the listing
entirely — it is not displayed under its original name `link` (nor any
other): `dirlist` categorizes by `entry.metadata()`, which does not
follow the link, so the entry is neither a directory nor a regular
file and is dropped. -/
theorem dirlist_symlink_omitted_counterexample :
    dirlist 10 vfsC7 wEx wEx = Except.ok ⟨false, [], []⟩ ∧
    pathresolve vfsC7.canon entLink.path wEx =
      Except.ok (wEx ++ [Component.normal "target.txt"]) ∧
    entLink.metadata = Except.ok (EMeta.mk false false (some 3)) :=
  ⟨rfl, rfl, rfl⟩

/-- C7 as amended: in `dirlist`, a directory entry that is itself a
symlink is silently omitted from the listing (its own non-following
metadata reports neither file nor directory), and entries whose paths
cannot be resolved inside the root or whose metadata cannot be read are
likewise silently omitted rather than failing the listing: when every
entry of the stream is skippable for one of these reasons, `dirlist`
still succeeds, with both result vectors empty. -/
theorem dirlist_skip_amended (N : Nat) (vfs : Vfs) (path parent : CPath)
    (stream : List (Except Unit DirEnt))
    (hrd : vfs.readDir path = Except.ok stream)
    (hall : ∀ e ∈ stream, skipsEntry vfs.canon parent e) :
    ∃ l, dirlist N vfs path parent = Except.ok l ∧
      l.files = [] ∧ l.directories = [] := by
  have hnone : ∀ e ∈ stream, processEnt vfs.canon parent e = none :=
    fun e he => processEnt_none_of_skips vfs.canon parent e (hall e he)
  have hacc := dirlistGo_acc_skip vfs.canon parent N stream 0 [] [] hnone
  refine ⟨_, dirlist_ok_of_readDir N vfs path parent stream hrd, ?_, ?_⟩
  · show sortDesc (dirlistGo vfs.canon parent N stream 0 [] []).1 = []
    rw [hacc.1]
    rfl
  · show sortDesc (dirlistGo vfs.canon parent N stream 0 [] []).2.1 = []
    rw [hacc.2]
    rfl

/-- Witness for the amended C7: on the filesystem whose only entry is
the resolvable symlink `link`, `dirlist` succeeds and lists nothing. -/
theorem dirlist_skip_amended_witness :
    (dirlist 10 vfsC7 wEx wEx).isOk = true ∧
    dirlist 10 vfsC7 wEx wEx = Except.ok ⟨false, [], []⟩ := by
  have hall : ∀ e ∈ [Except.ok entLink],
      skipsEntry vfsC7.canon wEx e := by
    intro e he
    simp only [List.mem_singleton] at he
    subst he
    exact Or.inr (Or.inr ⟨EMeta.mk false false (some 3), rfl, rfl, rfl⟩)
  obtain ⟨l, hl, hf, hd⟩ := dirlist_skip_amended 10 vfsC7 wEx wEx
    [Except.ok entLink] rfl hall
  constructor
  · rw [hl]
    rfl
  · rfl

/-- C8 counterexample: with limit 1 and a two-entry directory whose
first probed entry is the resolvable, readable symlink `link`, `dirlist`
returns `truncated = true` but zero entries — fewer than the limit even
though no per-entry error occurred. -/
theorem dirlist_truncation_counterexample :
    dirlist 1 vfsC8 wEx wEx = Except.ok ⟨true, [], []⟩ ∧
    vfsC8.readDir wEx =
      Except.ok [Except.ok entLink, Except.ok entFileB] ∧
    (pathresolve vfsC8.canon entLink.path wEx).isOk = true ∧
    entLink.metadata.isOk = true :=
  ⟨rfl, rfl, rfl, rfl⟩

/-- C8 as amended: for every directory with more entries than the limit
`N`, `dirlist` returns `truncated = true` and at most `N` entries in
total (exactly `N`, or fewer when entries are skipped — due to
per-entry errors or because they are neither regular files nor
directories, such as symlinks and devices); it never returns more than
`N` entries. -/
theorem dirlist_truncation_amended (N : Nat) (vfs : Vfs)
    (path parent : CPath) (stream : List (Except Unit DirEnt))
    (hrd : vfs.readDir path = Except.ok stream)
    (hlen : N < stream.length) :
    ∃ l, dirlist N vfs path parent = Except.ok l ∧
      l.truncated = true ∧
      l.files.length + l.directories.length ≤ N := by
  refine ⟨_, dirlist_ok_of_readDir N vfs path parent stream hrd, ?_, ?_⟩
  · show ((dirlistGo vfs.canon parent N stream 0 [] []).2.2 == N) = true
    have := dirlistGo_n_reach vfs.canon parent N stream 0 [] []
      (Nat.zero_le N) (by omega)
    simp [this]
  · show (sortDesc (dirlistGo vfs.canon parent N stream 0 [] []).1).length +
      (sortDesc (dirlistGo vfs.canon parent N stream 0 [] []).2.1).length ≤ N
    rw [length_sortDesc, length_sortDesc]
    have := dirlistGo_count_le vfs.canon parent N stream 0 [] []
    simpa using this

/-- Witness for the amended C8 on the two-entry directory with limit 1:
the call succeeds; by the theorem its listing is truncated with at most
one entry, and in fact equals the empty truncated listing. -/
theorem dirlist_truncation_amended_witness :
    (dirlist 1 vfsC8 wEx wEx).isOk = true := by
  obtain ⟨l, hl, ht, hc⟩ := dirlist_truncation_amended 1 vfsC8 wEx wEx
    [Except.ok entLink, Except.ok entFileB] rfl (by simp)
  rw [hl]
  rfl

/-- C9: for a directory with exactly `N` entries, all of which are
recorded (none skipped), `dirlist` still returns `truncated = true` —
the loop counter is incremented before each probe and reaches `N`
without an `(N+1)`-th probe — while the listing holds all `N` entries. -/
theorem dirlist_exactN_truncated (N : Nat) (vfs : Vfs)
    (path parent : CPath) (stream : List (Except Unit DirEnt))
    (hrd : vfs.readDir path = Except.ok stream)
    (hlen : stream.length = N)
    (hall : ∀ e ∈ stream, pushesEntry vfs.canon parent e) :
    ∃ l, dirlist N vfs path parent = Except.ok l ∧
      l.truncated = true ∧
      l.files.length + l.directories.length = N := by
  have hsome : ∀ e ∈ stream, ∃ b df,
      processEnt vfs.canon parent e = some (b, df) :=
    fun e he => processEnt_some_of_pushes vfs.canon parent e (hall e he)
  have hpush := dirlistGo_all_push vfs.canon parent N stream 0 [] []
    hsome (by omega)
  refine ⟨_, dirlist_ok_of_readDir N vfs path parent stream hrd, ?_, ?_⟩
  · show ((dirlistGo vfs.canon parent N stream 0 [] []).2.2 == N) = true
    simp [hpush.2]
  · show (sortDesc (dirlistGo vfs.canon parent N stream 0 [] []).1).length +
      (sortDesc (dirlistGo vfs.canon parent N stream 0 [] []).2.1).length = N
    rw [length_sortDesc, length_sortDesc]
    have h1 := hpush.1
    simp only [List.length_nil] at h1
    omega

/-- Witness for C9: `/srv` with exactly two recordable entries and limit
2 lists both entries yet reports `truncated = true`. -/
theorem dirlist_exactN_truncated_witness :
    dirlist 2 vfsC9 wEx wEx = Except.ok
      ⟨true,
       [DomainFile.new [Component.normal "b.txt"] (some 4) true false],
       [DomainFile.new [Component.normal "d"] none false false]⟩ ∧
    (dirlist 2 vfsC9 wEx wEx).isOk = true := by
  have hall : ∀ e ∈ [Except.ok entFileB, Except.ok entDirD],
      pushesEntry vfsC9.canon wEx e := by
    intro e he
    simp only [List.mem_cons, List.mem_singleton] at he
    rcases he with rfl | rfl | hfalse
    · exact ⟨entFileB, rfl, ⟨wEx ++ [Component.normal "b.txt"], rfl⟩,
        EMeta.mk false true (some 4), rfl, Or.inr rfl⟩
    · exact ⟨entDirD, rfl, ⟨wEx ++ [Component.normal "d"], rfl⟩,
        EMeta.mk true false none, rfl, Or.inl rfl⟩
    · exact absurd hfalse (by simp)
  obtain ⟨l, hl, ht, hc⟩ := dirlist_exactN_truncated 2 vfsC9 wEx wEx
    [Except.ok entFileB, Except.ok entDirD] rfl rfl hall
  constructor
  · rfl
  · rw [hl]
    rfl

end Gagaga
